import Mathlib

/-!
Verification development for the `pchpc` street-simulation core.

The Go sources are shallowly embedded:
* `src/streets/vehicles.go` — vehicle construction, the per-tick `drive`
  step, ledger handling (`deque.Deque[float64]` is embedded as `List ℚ`
  with the head at the deque front), `GetCurrentEdge`, `IsLeading`.
* `src/streets/graph.go` — `GetVertices`, `GetTopRightBottomLeftVertices`,
  `DivideGraphsIntoRects`, `GraphFromRect` (the `dominikbraun/graph`
  library is embedded by its documented semantics: `GraphFromRect`
  builds an undirected graph, duplicate insertions are rejected).

Edge-queue methods (`GetPosition`, `PushVehicle`, `PopVehicle`,
`FrontVehicle`) and `GetCorrespondingEdge` belong to this repository but
are not under `src/`; they are modelled from the specification where
noted. Floating-point lengths and coordinates are embedded as `ℚ`.
-/

namespace Streets

/-- Vertex identifiers (Go `int`). -/
abbrev VertexId := Int

/-- `GVertex` from the source: id plus 2-D coordinates. -/
structure GVertex where
  ID : VertexId
  X : ℚ
  Y : ℚ
deriving DecidableEq, Repr

/-- `Point` from `graph.go`. -/
structure Point where
  X : ℚ
  Y : ℚ
deriving DecidableEq, Repr

/-- A graph-store edge record: source, target, length (`EdgeData.Length`). -/
structure EdgeRec where
  source : VertexId
  target : VertexId
  length : ℚ
deriving DecidableEq, Repr

/-- Modelled from the spec: `GetCorrespondingEdge(v1, v2) → Edge | NotFound`
is a directed edge lookup in the graph store (§6); it is not under `src/`.
Embedded as a first-match search over the store edge list. -/
def GetCorrespondingEdge (edges : List EdgeRec) (v1 v2 : VertexId) :
    Option EdgeRec :=
  match edges with
  | [] => none
  | e :: rest =>
    if e.source = v1 ∧ e.target = v2 then some e
    else GetCorrespondingEdge rest v1 v2

/-- The sentinel `NotInQueue = -1` from `vehicles.go`. -/
def NotInQueue : Int := -1

/-- An edge is keyed by its (source, target) pair; its vehicle queue is a
front-first list of vehicle ids. -/
abbrev EKey := VertexId × VertexId

/-- The per-edge queues of the graph store, as an association list. -/
abbrev Queues := List (EKey × List String)

/-- Modelled from the spec: `Edge.GetPosition(v)` (an edge-queue method not
under `src/`) is a linear scan returning the 0-based index from the front,
or the sentinel `NotInQueue` if absent (§4.1). -/
def GetPosition (q : List String) (vid : String) : Int :=
  match q with
  | [] => NotInQueue
  | x :: rest =>
    if x = vid then 0
    else
      let p := GetPosition rest vid
      if p = NotInQueue then NotInQueue else p + 1

/-- Look up the queue of edge `k`; an edge never touched has an empty queue. -/
def lookupQueue (qs : Queues) (k : EKey) : List String :=
  match qs with
  | [] => []
  | p :: rest => if p.1 = k then p.2 else lookupQueue rest k

/-- Replace the queue stored for edge `k` (insert if missing). -/
def setQueue (qs : Queues) (k : EKey) (q : List String) : Queues :=
  match qs with
  | [] => [(k, q)]
  | p :: rest => if p.1 = k then (k, q) :: rest else p :: setQueue rest k q

/-- The vehicle state from `vehicles.go` (`Vehicle`): id, speed, path,
remaining-distance ledger (`PathLength` deque, head = front), parked flag
and the resolved current edge. -/
structure VState where
  vid : String
  speed : ℚ
  path : List GVertex
  ledger : List ℚ
  isParked : Bool
  currentEdge : Option EKey
deriving DecidableEq, Repr

/-- A simulation state: one vehicle, the graph-store edge list and the
per-edge vehicle queues. -/
structure Sim where
  veh : VState
  graphEdges : List EdgeRec
  queues : Queues
deriving DecidableEq, Repr

/-- `GetPathLengths` from `vehicles.go`: the length of the edge joining each
consecutive vertex pair of the path; a missing edge panics in Go, embedded
as `none`. -/
def GetPathLengths (edges : List EdgeRec) : List GVertex → Option (List ℚ)
  | [] => some []
  | [_] => some []
  | a :: b :: rest =>
    match GetCorrespondingEdge edges a.ID b.ID with
    | none => none
    | some e =>
      match GetPathLengths edges (b :: rest) with
      | none => none
      | some ls => some (e.length :: ls)

/-- The ledger-construction loop of `NewVehicle`: push each nonzero path
length to the back of the fresh deque, in order. -/
def buildLedger (lengths : List ℚ) : List ℚ :=
  lengths.foldl (fun q x => if x ≠ 0 then q ++ [x] else q) []

/-- `NewVehicle` from `vehicles.go` (the generated nanoid is a parameter). -/
def NewVehicle (edges : List EdgeRec) (path : List GVertex) (speed : ℚ)
    (vid : String) : Option VState :=
  match GetPathLengths edges path with
  | none => none
  | some ls =>
    some { vid := vid, speed := speed, path := path,
           ledger := buildLedger ls, isParked := false, currentEdge := none }

/-- The index of the first nonzero entry, when one exists. -/
def findNonZeroIdx : List ℚ → Option Nat
  | [] => none
  | x :: rest =>
    if x ≠ 0 then some 0 else (findNonZeroIdx rest).map (· + 1)

/-- The first loop of `GetCurrentEdge`: the smallest index holding a nonzero
ledger entry (`var nonZeroIdx int` stays `0` when none is found). -/
def firstNonZeroIdx (l : List ℚ) : Nat :=
  (findNonZeroIdx l).getD 0

/-- `deque.Back()`: the entry at the back (the last list element); `Back()`
of an empty deque panics in Go, embedded as `none`. -/
def dequeBack? : List ℚ → Option ℚ
  | [] => none
  | [x] => some x
  | _ :: y :: rest => dequeBack? (y :: rest)

/-- `deque.PopBack()`: drop the entry at the back. -/
def dequePopBack : List ℚ → List ℚ
  | [] => []
  | [_] => []
  | x :: y :: rest => x :: dequePopBack (y :: rest)

/-- `GetCurrentEdge` from `vehicles.go`: `nil` when parked, otherwise the
edge joining `path[i]` and `path[i+1]` where `i` is the first nonzero ledger
index. An out-of-range access or failed lookup (both fatal in Go) is
embedded as `none`. -/
def GetCurrentEdge (s : Sim) : Option EdgeRec :=
  if s.veh.isParked then none
  else
    let i := firstNonZeroIdx s.veh.ledger
    match s.veh.path[i]?, s.veh.path[i+1]? with
    | some a, some b => GetCorrespondingEdge s.graphEdges a.ID b.ID
    | _, _ => none

/-- `drive` from `vehicles.go`. Step 1 resolves `currentEdge`; step 2
enqueues the vehicle at the back when absent (`PushVehicle`, modelled from
the spec as a back append); step 3 branches on `Back() ≤ Speed` and the
deque length, where `PopVehicle` (modelled from the spec, §4.1) removes the
queue front. Go panics (nil dereference, `Back()` of an empty deque) are
embedded as `none`. -/
def drive (s : Sim) : Option Sim :=
  match GetCurrentEdge s with
  | none => none
  | some e =>
    let k : EKey := (e.source, e.target)
    let q0 := lookupQueue s.queues k
    let q1 := if GetPosition q0 s.veh.vid = NotInQueue then q0 ++ [s.veh.vid]
              else q0
    match dequeBack? s.veh.ledger with
    | none => none
    | some back =>
      if back ≤ s.veh.speed ∧ 1 < s.veh.ledger.length then
        match dequeBack? (dequePopBack s.veh.ledger) with
        | none => none
        | some bM =>
          some { s with
            veh := { s.veh with
                       currentEdge := some k
                       ledger := dequePopBack (dequePopBack s.veh.ledger)
                                   ++ [back + bM] }
            queues := setQueue s.queues k q1 }
      else if back ≤ s.veh.speed ∧ s.veh.ledger.length = 1 then
        some { s with
          veh := { s.veh with
                     currentEdge := some k
                     ledger := []
                     isParked := true }
          queues := setQueue s.queues k q1.tail }
      else
        some { s with
          veh := { s.veh with
                     currentEdge := some k
                     ledger := dequePopBack s.veh.ledger ++ [back - s.veh.speed] }
          queues := setQueue s.queues k q1 }

/-- `Step` from `vehicles.go`: a no-op when parked, otherwise `drive`. -/
def Step (s : Sim) : Option Sim :=
  if s.veh.isParked then some s else drive s

/-- `n` caller-driven ticks of `Step`. -/
def stepN : Nat → Sim → Option Sim
  | 0, s => some s
  | n + 1, s =>
    match Step s with
    | none => none
    | some t => stepN n t

/-- Modelled from the spec: `Edge.FrontVehicle` is not under `src/`. The
source `IsLeading` returns `FrontVehicle(v) == nil`, and per the spec a
vehicle is leading iff it occupies index 0 of its current edge's queue,
while a `nil` `currentEdge` is not leading; only the nil-ness of the result
is observed by the source, so a non-leading state returns the vehicle id
itself as an arbitrary non-nil value. -/
def FrontVehicle (e : Option EKey) (qs : Queues) (vid : String) :
    Option String :=
  match e with
  | none => some vid
  | some k => if GetPosition (lookupQueue qs k) vid = 0 then none else some vid

/-- `IsLeading` from `vehicles.go`: `v.CurrentEdge.FrontVehicle(v) == nil`. -/
def IsLeading (s : Sim) : Bool :=
  decide (FrontVehicle s.veh.currentEdge s.queues s.veh.vid = none)

/-! ## The partitioner (`graph.go`) -/

/-- A whole graph-store value: the vertex table and the edge list. -/
structure JGraph where
  vertices : List GVertex
  edges : List EdgeRec
deriving DecidableEq, Repr

/-- Insert an id once (the Go `map[int]bool` keyed on endpoint ids,
linearised in first-appearance order; the bounding box is insensitive to
the map's iteration order). -/
def insertUnique (l : List VertexId) (x : VertexId) : List VertexId :=
  if x ∈ l then l else l ++ [x]

/-- The endpoint ids of the edge list, deduplicated (`GetVertices` builds
exactly this key set from `edges`). -/
def edgeVertexIds (edges : List EdgeRec) : List VertexId :=
  edges.foldl (fun acc e => insertUnique (insertUnique acc e.source) e.target) []

/-- The graph store's `Vertex(id)` lookup against the vertex table. -/
def getVertexById (table : List GVertex) (i : VertexId) : Option GVertex :=
  match table with
  | [] => none
  | v :: rest => if v.ID = i then some v else getVertexById rest i

/-- Look up every id; any miss fails the whole call (`GetVertices` returns
an error when `gg.Vertex(key)` fails). -/
def lookupAll (table : List GVertex) : List VertexId → Option (List GVertex)
  | [] => some []
  | i :: rest =>
    match getVertexById table i, lookupAll table rest with
    | some v, some vs => some (v :: vs)
    | _, _ => none

/-- `GetVertices` from `graph.go`: the vertices incident to at least one
edge, resolved through the vertex table. -/
def GetVertices (jg : JGraph) : Option (List GVertex) :=
  lookupAll jg.vertices (edgeVertexIds jg.edges)

/-- One iteration of the extrema loop of `GetTopRightBottomLeftVertices`;
the accumulator is `(botX, botY, topX, topY)`. -/
def bbStep (acc : ℚ × ℚ × ℚ × ℚ) (v : GVertex) : ℚ × ℚ × ℚ × ℚ :=
  (if v.X < acc.1 then v.X else acc.1,
   if v.Y < acc.2.1 then v.Y else acc.2.1,
   if acc.2.2.1 < v.X then v.X else acc.2.2.1,
   if acc.2.2.2 < v.Y then v.Y else acc.2.2.2)

/-- The extrema loop, seeded at `botX = botY = 100`, `topX = topY = 0`. -/
def bboxFold (vs : List GVertex) : ℚ × ℚ × ℚ × ℚ :=
  vs.foldl bbStep (100, 100, 0, 0)

/-- `GetTopRightBottomLeftVertices` from `graph.go`: `(bot, top)` extrema of
the edge-incident vertices; on a `GetVertices` failure the zero-valued
points are returned. -/
def GetTopRightBottomLeftVertices (jg : JGraph) : Point × Point :=
  match GetVertices jg with
  | none => (⟨0, 0⟩, ⟨0, 0⟩)
  | some vs =>
    let r := bboxFold vs
    (⟨r.1, r.2.1⟩, ⟨r.2.2.1, r.2.2.2⟩)

/-- `Rect` from `graph.go`. -/
structure Rect where
  topRight : Point
  botLeft : Point
  vertices : List GVertex
deriving DecidableEq, Repr

/-- `InRect` from `graph.go`: membership by vertex id. -/
def InRect (r : Rect) (v : GVertex) : Bool :=
  r.vertices.any (fun w => decide (w.ID = v.ID))

/-- Iteration `i` of the strip loop of `DivideGraphsIntoRects`: strip `i`
spans `x` from `bot.X + (Δ/n)·i` to `bot.X + (Δ/n)·(i+1)` with the full
`y` range, holding the vertices inside it (bounds inclusive). -/
def stripRect (bot top : Point) (vs : List GVertex) (n i : Nat) : Rect :=
  { topRight := ⟨bot.X + ((top.X - bot.X) / (n : ℚ)) * ((i : ℚ) + 1), top.Y⟩
    botLeft := ⟨bot.X + ((top.X - bot.X) / (n : ℚ)) * (i : ℚ), bot.Y⟩
    vertices := vs.filter (fun v =>
      decide ((bot.Y ≤ v.Y ∧ v.Y ≤ top.Y) ∧
              (bot.X + ((top.X - bot.X) / (n : ℚ)) * (i : ℚ) ≤ v.X
                ∧ v.X ≤ bot.X
                    + ((top.X - bot.X) / (n : ℚ)) * ((i : ℚ) + 1)))) }

/-- `DivideGraphsIntoRects` from `graph.go`: slice the bounding box into
`n` equal-width vertical strips and collect into each strip the vertices
inside it (bounds inclusive); a `GetVertices` failure propagates. -/
def DivideGraphsIntoRects (n : Nat) (jg : JGraph) : Option (List Rect) :=
  match GetVertices jg with
  | none => none
  | some vs =>
    some ((List.range n).map
      (stripRect (GetTopRightBottomLeftVertices jg).1
        (GetTopRightBottomLeftVertices jg).2 vs n))

/-! ## `GraphFromRect` (`graph.go`)

`GraphFromRect` calls `graph.New` without the `graph.Directed()` option, so
the library builds an undirected graph: `AddEdge(s, t)` requires both
vertices to be present, and rejects the insertion when an edge between `s`
and `t` already exists in either orientation. -/

/-- A subgraph value: the added vertices and the stored edge records in
insertion order. -/
structure UGraph where
  uvertices : List GVertex
  uedges : List (VertexId × VertexId)
deriving DecidableEq, Repr

/-- The library's `AddVertex`: rejected (a no-op for the caller, which
ignores the error) when a vertex with the same hash (id) is present. -/
def addVertexU (g : UGraph) (v : GVertex) : UGraph :=
  if g.uvertices.any (fun w => decide (w.ID = v.ID)) then g
  else { g with uvertices := g.uvertices ++ [v] }

/-- Vertex presence by id. -/
def hasVertexU (g : UGraph) (i : VertexId) : Bool :=
  g.uvertices.any (fun w => decide (w.ID = i))

/-- The undirected library's duplicate check: an edge between `s` and `t`
exists in either orientation. -/
def edgeExistsU (g : UGraph) (s t : VertexId) : Bool :=
  g.uedges.any (fun e => decide ((e.1 = s ∧ e.2 = t) ∨ (e.1 = t ∧ e.2 = s)))

/-- The library's `AddEdge` on an undirected graph: a no-op for the caller
(which skips every error) unless both endpoints are present and no edge
between them exists yet. -/
def addEdgeU (g : UGraph) (s t : VertexId) : UGraph :=
  if hasVertexU g s ∧ hasVertexU g t then
    if edgeExistsU g s t then g
    else { g with uedges := g.uedges ++ [(s, t)] }
  else g

/-- The linear scan of `rect.Vertices` for an endpoint id (the loop
setting `srcInRect` / `dstInRect`, and the body of `InRect`). -/
def rectMemId (rect : Rect) (i : VertexId) : Bool :=
  rect.vertices.any (fun w => decide (w.ID = i))

/-- The edge loop body of `GraphFromRect`: scan `rect.Vertices` for both
endpoints, and add the edge only when both are members. -/
def graphFromRectStep (rect : Rect) (g : UGraph) (e : VertexId × VertexId) :
    UGraph :=
  if rectMemId rect e.1 ∧ rectMemId rect e.2 then addEdgeU g e.1 e.2
  else g

/-- `GraphFromRect` from `graph.go`: add the rect's vertices, then filter
the raw edge list down to edges with both endpoints in the rect. -/
def GraphFromRect (edges : List (VertexId × VertexId)) (rect : Rect) :
    UGraph :=
  edges.foldl (graphFromRectStep rect) (rect.vertices.foldl addVertexU ⟨[], []⟩)

/-! ## Concrete fixtures -/

/-- Vertex A of the demo network, at the origin. -/
def vA : GVertex := ⟨1, 0, 0⟩

/-- Vertex B of the demo network. -/
def vB : GVertex := ⟨2, 10, 0⟩

/-- Vertex C of the demo network. -/
def vC : GVertex := ⟨3, 15, 0⟩

/-- A two-edge demo network: A→B of length 10, B→C of length 5. -/
def demoEdges : List EdgeRec := [⟨1, 2, 10⟩, ⟨2, 3, 5⟩]

/-- The demo route A, B, C. -/
def demoPath : List GVertex := [vA, vB, vC]

/-- A fresh vehicle of speed 3 on the demo route; its ledger `[10, 5]` is
exactly what `NewVehicle` constructs (front entry 10, back entry 5). -/
def c1Sim : Sim :=
  { veh := { vid := "veh1", speed := 3, path := demoPath, ledger := [10, 5],
             isParked := false, currentEdge := none },
    graphEdges := demoEdges, queues := [] }

/-- A fresh vehicle of speed 20 on the demo route (total length 15). -/
def c4Sim : Sim :=
  { veh := { vid := "veh4", speed := 20, path := demoPath, ledger := [10, 5],
             isParked := false, currentEdge := none },
    graphEdges := demoEdges, queues := [] }

/-- A vehicle about to park while queued at position 1, behind another
vehicle, on its single-edge route. -/
def c2Sim : Sim :=
  { veh := { vid := "me", speed := 10, path := [vA, vB], ledger := [5],
             isParked := false, currentEdge := none },
    graphEdges := [⟨1, 2, 5⟩], queues := [((1, 2), ["other", "me"])] }

/-- A vehicle about to park while alone in its edge's queue. -/
def c2wSim : Sim :=
  { veh := { vid := "me", speed := 10, path := [vA, vB], ledger := [5],
             isParked := false, currentEdge := none },
    graphEdges := [⟨1, 2, 5⟩], queues := [((1, 2), ["me"])] }

/-- A speed-6 vehicle on the demo route, already queued on edge (1, 2),
whose back entry 5 is within its speed: the next step merges (Case A). -/
def c3Sim : Sim :=
  { veh := { vid := "veh1", speed := 6, path := demoPath, ledger := [10, 5],
             isParked := false, currentEdge := none },
    graphEdges := demoEdges, queues := [((1, 2), ["veh1"])] }

/-- A fourth vertex, for the zero-length-edge route. -/
def vD : GVertex := ⟨4, 20, 0⟩

/-- A three-edge network whose middle edge has length 0. -/
def c8Edges : List EdgeRec := [⟨1, 2, 10⟩, ⟨2, 3, 0⟩, ⟨3, 4, 5⟩]

/-- The route across the zero-length edge. -/
def c8Path : List GVertex := [vA, vB, vC, vD]

/-- A parked vehicle with no resolved current edge. -/
def c9Sim : Sim :=
  { veh := { vid := "v", speed := 1, path := [], ledger := [],
             isParked := true, currentEdge := none },
    graphEdges := [], queues := [] }

/-- A graph whose two connected vertices both lie beyond coordinate 100. -/
def jg5 : JGraph :=
  { vertices := [⟨1, 150, 150⟩, ⟨2, 200, 120⟩], edges := [⟨1, 2, 1⟩] }

/-- An isolated vertex (no incident edge) for the bounding-box claim. -/
def w5 : GVertex := ⟨9, 5, 5⟩

/-- A four-vertex graph (vertex 4 isolated) with two edges, for the
partitioning claim. -/
def c7Graph : JGraph :=
  { vertices := [⟨1, 0, 0⟩, ⟨2, 10, 4⟩, ⟨3, 6, 2⟩, ⟨4, 50, 50⟩],
    edges := [⟨1, 2, 1⟩, ⟨2, 3, 1⟩] }

/-- The edge-incident vertices of `c7Graph`, in scan order. -/
def c7Verts : List GVertex := [⟨1, 0, 0⟩, ⟨2, 10, 4⟩, ⟨3, 6, 2⟩]

/-- The two strips `DivideGraphsIntoRects 2` produces for `c7Graph`. -/
def c7Rects : List Rect :=
  (List.range 2).map
    (stripRect (GetTopRightBottomLeftVertices c7Graph).1
      (GetTopRightBottomLeftVertices c7Graph).2 c7Verts 2)

/-- A rect holding vertices 1 and 2, for the subgraph claims. -/
def rect12 : Rect :=
  { topRight := ⟨100, 100⟩, botLeft := ⟨0, 0⟩,
    vertices := [⟨1, 0, 0⟩, ⟨2, 10, 4⟩] }

/-! ## Supporting lemmas -/

/-- The back of a deque holding `l ++ [x]` is `x`. -/
theorem dequeBack?_concat (l : List ℚ) (x : ℚ) :
    dequeBack? (l ++ [x]) = some x := by
  induction l with
  | nil => rfl
  | cons a l ih =>
    cases l with
    | nil => rfl
    | cons y l2 => simpa using ih

/-- Popping the back of a deque holding `l ++ [x]` leaves `l`. -/
theorem dequePopBack_concat (l : List ℚ) (x : ℚ) :
    dequePopBack (l ++ [x]) = l := by
  induction l with
  | nil => rfl
  | cons a l ih =>
    cases l with
    | nil => rfl
    | cons y l2 => simpa [dequePopBack] using ih

/-- A queued vehicle has a nonnegative position. -/
theorem GetPosition_nonneg_of_mem (q : List String) (vid : String)
    (h : vid ∈ q) : 0 ≤ GetPosition q vid := by
  induction q with
  | nil => cases h
  | cons x rest ih =>
    by_cases hx : x = vid
    · simp [GetPosition, hx]
    · have hm : vid ∈ rest := by
        cases h with
        | head => exact absurd rfl hx
        | tail _ h2 => exact h2
      have h0 := ih hm
      simp only [GetPosition, hx, if_false]
      split
      · omega
      · omega

/-- A queued vehicle is never reported `NotInQueue`. -/
theorem GetPosition_ne_sentinel_of_mem (q : List String) (vid : String)
    (h : vid ∈ q) : GetPosition q vid ≠ NotInQueue := by
  have := GetPosition_nonneg_of_mem q vid h
  simp only [NotInQueue]
  omega

/-- Reading back the queue just stored for an edge. -/
theorem lookupQueue_setQueue_self (qs : Queues) (k : EKey) (q : List String) :
    lookupQueue (setQueue qs k q) k = q := by
  induction qs with
  | nil => simp [setQueue, lookupQueue]
  | cons p rest ih =>
    by_cases hk : p.1 = k
    · simp [setQueue, lookupQueue, hk]
    · simp [setQueue, lookupQueue, hk, ih]

/-- The ledger-construction loop keeps exactly the nonzero lengths, in
order. -/
theorem buildLedger_eq_filter (ls : List ℚ) :
    buildLedger ls = ls.filter (fun x => decide (x ≠ 0)) := by
  have gen : ∀ (l : List ℚ) (acc : List ℚ),
      l.foldl (fun q x => if x ≠ 0 then q ++ [x] else q) acc
        = acc ++ l.filter (fun x => decide (x ≠ 0)) := by
    intro l
    induction l with
    | nil => intro acc; simp
    | cons x rest ih =>
      intro acc
      simp only [List.foldl_cons, List.filter_cons]
      by_cases hx : x = 0
      · rw [if_neg (fun h => h hx), ih acc,
          if_neg (by simp [hx])]
      · rw [if_pos hx, ih (acc ++ [x]), if_pos (by simp [hx])]
        simp
  simpa [buildLedger] using gen ls []

/-- Dropping the zero entries does not change a sum. -/
theorem sum_filter_nonzero (ls : List ℚ) :
    (ls.filter (fun x => decide (x ≠ 0))).sum = ls.sum := by
  induction ls with
  | nil => rfl
  | cons x rest ih =>
    rw [List.filter_cons]
    by_cases hx : x = 0
    · rw [if_neg (by simp [hx]), ih, List.sum_cons, hx, zero_add]
    · rw [if_pos (by simp [hx]), List.sum_cons, List.sum_cons, ih]

/-- Zero survives no nonzero filter. -/
theorem zero_not_mem_filter_nonzero (ls : List ℚ) :
    (0 : ℚ) ∉ ls.filter (fun x => decide (x ≠ 0)) := by
  intro h
  have := List.of_mem_filter h
  simp at this

/-- A vertex whose id is looked up by no edge endpoint does not affect the
table lookups. -/
theorem lookupAll_cons_of_not_mem (w : GVertex) (table : List GVertex)
    (ids : List VertexId) (hw : w.ID ∉ ids) :
    lookupAll (w :: table) ids = lookupAll table ids := by
  induction ids with
  | nil => rfl
  | cons i rest ih =>
    have hi : ¬(w.ID = i) := fun h =>
      hw (by rw [h]; exact List.mem_cons_self i rest)
    have hrest : w.ID ∉ rest := fun h => hw (List.mem_cons_of_mem i h)
    simp [lookupAll, getVertexById, hi, ih hrest]

/-- The running minima of the extrema loop never move when every scanned
vertex lies at or above them. -/
theorem bbFold_min_fixed (vs : List GVertex) :
    ∀ acc : ℚ × ℚ × ℚ × ℚ, (∀ v ∈ vs, acc.1 ≤ v.X ∧ acc.2.1 ≤ v.Y) →
      (List.foldl bbStep acc vs).1 = acc.1
      ∧ (List.foldl bbStep acc vs).2.1 = acc.2.1 := by
  induction vs with
  | nil => intro acc _; exact ⟨rfl, rfl⟩
  | cons v rest ih =>
    intro acc h
    have hv := h v (List.mem_cons_self _ _)
    have h1 : (bbStep acc v).1 = acc.1 := by
      simp [bbStep, not_lt.mpr hv.1]
    have h2 : (bbStep acc v).2.1 = acc.2.1 := by
      simp [bbStep, not_lt.mpr hv.2]
    rw [List.foldl_cons]
    have hrest : ∀ u ∈ rest,
        (bbStep acc v).1 ≤ u.X ∧ (bbStep acc v).2.1 ≤ u.Y := by
      intro u hu
      rw [h1, h2]
      exact h u (List.mem_cons_of_mem v hu)
    have := ih (bbStep acc v) hrest
    exact ⟨this.1.trans h1, this.2.trans h2⟩

/-- The running maxima of the extrema loop never move when every scanned
vertex lies at or below them. -/
theorem bbFold_max_fixed (vs : List GVertex) :
    ∀ acc : ℚ × ℚ × ℚ × ℚ, (∀ v ∈ vs, v.X ≤ acc.2.2.1 ∧ v.Y ≤ acc.2.2.2) →
      (List.foldl bbStep acc vs).2.2.1 = acc.2.2.1
      ∧ (List.foldl bbStep acc vs).2.2.2 = acc.2.2.2 := by
  induction vs with
  | nil => intro acc _; exact ⟨rfl, rfl⟩
  | cons v rest ih =>
    intro acc h
    have hv := h v (List.mem_cons_self _ _)
    have h1 : (bbStep acc v).2.2.1 = acc.2.2.1 := by
      simp [bbStep, not_lt.mpr hv.1]
    have h2 : (bbStep acc v).2.2.2 = acc.2.2.2 := by
      simp [bbStep, not_lt.mpr hv.2]
    rw [List.foldl_cons]
    have hrest : ∀ u ∈ rest,
        u.X ≤ (bbStep acc v).2.2.1 ∧ u.Y ≤ (bbStep acc v).2.2.2 := by
      intro u hu
      rw [h1, h2]
      exact h u (List.mem_cons_of_mem v hu)
    have := ih (bbStep acc v) hrest
    exact ⟨this.1.trans h1, this.2.trans h2⟩

/-- Adding vertices never touches the stored edge list. -/
theorem addVertexU_foldl_uedges (vs : List GVertex) :
    ∀ g : UGraph, (vs.foldl addVertexU g).uedges = g.uedges := by
  induction vs with
  | nil => intro g; rfl
  | cons v rest ih =>
    intro g
    rw [List.foldl_cons, ih]
    unfold addVertexU
    split
    · rfl
    · rfl

/-- An edge stored after `AddEdge` was already stored or is the new one. -/
theorem mem_addEdgeU (g : UGraph) (s t : VertexId) (p : VertexId × VertexId)
    (hp : p ∈ (addEdgeU g s t).uedges) : p ∈ g.uedges ∨ p = (s, t) := by
  unfold addEdgeU at hp
  split at hp
  · split at hp
    · exact Or.inl hp
    · rcases List.mem_append.mp hp with h | h
      · exact Or.inl h
      · exact Or.inr (List.mem_singleton.mp h)
  · exact Or.inl hp

/-- The undirected duplicate check holds iff one orientation is stored. -/
theorem edgeExistsU_eq_true_iff (g : UGraph) (s t : VertexId) :
    edgeExistsU g s t = true
      ↔ ((s, t) ∈ g.uedges ∨ (t, s) ∈ g.uedges) := by
  simp only [edgeExistsU, List.any_eq_true, decide_eq_true_eq]
  constructor
  · rintro ⟨e, he, h⟩
    obtain ⟨a, b⟩ := e
    rcases h with ⟨h1, h2⟩ | ⟨h1, h2⟩
    · subst h1; subst h2; exact Or.inl he
    · subst h1; subst h2; exact Or.inr he
  · rintro (h | h)
    · exact ⟨(s, t), h, Or.inl ⟨rfl, rfl⟩⟩
    · exact ⟨(t, s), h, Or.inr ⟨rfl, rfl⟩⟩

/-- The undirected duplicate check is orientation-blind. -/
theorem edgeExistsU_symm (g : UGraph) (s t : VertexId) :
    edgeExistsU g s t = edgeExistsU g t s := by
  rw [Bool.eq_iff_iff, edgeExistsU_eq_true_iff, edgeExistsU_eq_true_iff]
  exact or_comm

/-- Every edge the subgraph construction stores has both endpoint ids
inside the rect. -/
theorem graphFromRect_mem_uedges (edges : List (VertexId × VertexId))
    (rect : Rect) (p : VertexId × VertexId)
    (hp : p ∈ (GraphFromRect edges rect).uedges) :
    rectMemId rect p.1 = true ∧ rectMemId rect p.2 = true := by
  have aux : ∀ (es : List (VertexId × VertexId)) (g : UGraph),
      (∀ q ∈ g.uedges,
        rectMemId rect q.1 = true ∧ rectMemId rect q.2 = true) →
      ∀ q ∈ (es.foldl (graphFromRectStep rect) g).uedges,
        rectMemId rect q.1 = true ∧ rectMemId rect q.2 = true := by
    intro es
    induction es with
    | nil => intro g hg; exact hg
    | cons e rest ih =>
      intro g hg
      rw [List.foldl_cons]
      apply ih
      intro q hq
      unfold graphFromRectStep at hq
      split at hq
      case isTrue hcond =>
        rcases mem_addEdgeU _ _ _ _ hq with hin | heq
        · exact hg q hin
        · rw [heq]
          exact hcond
      case isFalse => exact hg q hq
  apply aux edges _ _ p hp
  intro q hq
  rw [addVertexU_foldl_uedges] at hq
  cases hq

/-- The subgraph construction never stores both orientations of an edge
between two distinct vertices. -/
theorem graphFromRect_no_dual (edges : List (VertexId × VertexId))
    (rect : Rect) (a b : VertexId) (hab : a ≠ b) :
    ¬((a, b) ∈ (GraphFromRect edges rect).uedges
      ∧ (b, a) ∈ (GraphFromRect edges rect).uedges) := by
  have aux : ∀ (es : List (VertexId × VertexId)) (g : UGraph),
      (∀ x y : VertexId, x ≠ y →
        ¬((x, y) ∈ g.uedges ∧ (y, x) ∈ g.uedges)) →
      ∀ x y : VertexId, x ≠ y →
        ¬((x, y) ∈ (es.foldl (graphFromRectStep rect) g).uedges
          ∧ (y, x) ∈ (es.foldl (graphFromRectStep rect) g).uedges) := by
    intro es
    induction es with
    | nil => intro g hg; exact hg
    | cons e rest ih =>
      intro g hg
      rw [List.foldl_cons]
      apply ih
      intro x y hxy hmem
      obtain ⟨hx, hy⟩ := hmem
      unfold graphFromRectStep at hx hy
      by_cases hc1 : rectMemId rect e.1 = true ∧ rectMemId rect e.2 = true
      · rw [if_pos hc1] at hx hy
        unfold addEdgeU at hx hy
        by_cases hc2 : hasVertexU g e.1 = true ∧ hasVertexU g e.2 = true
        · rw [if_pos hc2] at hx hy
          by_cases hc3 : edgeExistsU g e.1 e.2 = true
          · rw [if_pos hc3] at hx hy
            exact hg x y hxy ⟨hx, hy⟩
          · rw [if_neg hc3] at hx hy
            have hx2 : (x, y) ∈ g.uedges ++ [(e.1, e.2)] := hx
            have hy2 : (y, x) ∈ g.uedges ++ [(e.1, e.2)] := hy
            have hnm : ¬((e.1, e.2) ∈ g.uedges ∨ (e.2, e.1) ∈ g.uedges) :=
              fun hc => hc3 ((edgeExistsU_eq_true_iff g e.1 e.2).mpr hc)
            rcases List.mem_append.mp hx2 with hx3 | hx3 <;>
              rcases List.mem_append.mp hy2 with hy3 | hy3
            · exact hg x y hxy ⟨hx3, hy3⟩
            · have h2 := List.mem_singleton.mp hy3
              have hy1e : y = e.1 := congrArg Prod.fst h2
              have hx2e : x = e.2 := congrArg Prod.snd h2
              apply hnm
              right
              rw [← hy1e, ← hx2e]
              exact hx3
            · have h2 := List.mem_singleton.mp hx3
              have hx1e : x = e.1 := congrArg Prod.fst h2
              have hy2e : y = e.2 := congrArg Prod.snd h2
              apply hnm
              right
              rw [← hx1e, ← hy2e]
              exact hy3
            · have h2 := List.mem_singleton.mp hx3
              have h3 := List.mem_singleton.mp hy3
              have hx1e : x = e.1 := congrArg Prod.fst h2
              have hy1e : y = e.1 := congrArg Prod.fst h3
              exact hxy (hx1e.trans hy1e.symm)
        · rw [if_neg hc2] at hx hy
          exact hg x y hxy ⟨hx, hy⟩
      · rw [if_neg hc1] at hx hy
        exact hg x y hxy ⟨hx, hy⟩
  apply aux edges _ _ a b hab
  intro x y hxy hmem
  obtain ⟨hx, hy⟩ := hmem
  rw [addVertexU_foldl_uedges] at hx
  cases hx

/-! ## Theorems -/

/-- C1: the entry `drive` compares against the speed and decrements is the
deque back, but for a fresh multi-edge vehicle (ledger `[10, 5]`, as
`NewVehicle` builds it) `GetCurrentEdge` resolves the edge of the FIRST
nonzero entry. At this input the consumed back entry is 5 — the budget of
edge (2, 3) — while the resolved current edge is (1, 2) whose ledger entry
is 10: the consumed entry and the resolved edge denote different edges,
and a step leaves the vehicle on edge (1, 2) with ledger `[10, 2]`,
having decremented the other edge's budget. -/
theorem C1_consumed_entry_mismatch :
    (NewVehicle demoEdges demoPath 3 "veh1").map (fun v => v.ledger)
      = some c1Sim.veh.ledger
    ∧ GetCurrentEdge c1Sim = some ⟨1, 2, 10⟩
    ∧ dequeBack? c1Sim.veh.ledger = some 5
    ∧ c1Sim.veh.ledger[firstNonZeroIdx c1Sim.veh.ledger]? = some 10
    ∧ dequeBack? c1Sim.veh.ledger
        ≠ c1Sim.veh.ledger[firstNonZeroIdx c1Sim.veh.ledger]?
    ∧ (Step c1Sim).map (fun s => (s.veh.ledger, s.veh.currentEdge))
      = some ([10, 2], some (1, 2)) := by
  norm_num [NewVehicle, GetPathLengths, GetCorrespondingEdge, buildLedger,
    c1Sim, demoPath, demoEdges, vA, vB, vC, GetCurrentEdge, firstNonZeroIdx,
    findNonZeroIdx, Step, drive, dequeBack?, dequePopBack, GetPosition,
    NotInQueue, lookupQueue, setQueue, Option.map]

/-- C4 counterexample: the claim predicts `parked = true` within
`ceil(sum(lengths)/speed) = ceil(15/20) = 1` tick, but after one `Step`
the speed-20 vehicle on the `[10, 5]` path is not parked. -/
theorem C4_not_parked_within_ceil_bound :
    (stepN 1 c4Sim).map (fun s => s.veh.isParked) = some false := by
  norm_num [stepN, Step, drive, GetCurrentEdge, firstNonZeroIdx,
    findNonZeroIdx, GetCorrespondingEdge, dequeBack?, dequePopBack,
    GetPosition, NotInQueue, lookupQueue, setQueue, Option.map,
    c4Sim, demoPath, demoEdges, vA, vB, vC]

/-- C4 (amended): for the two-edge path of lengths `[10, 5]` and speed 20
the first `Step` takes the Case A branch (its guard `back ≤ speed ∧ 1 <
length` holds and the two ledger entries merge into `[15]` with the vehicle
not yet parked), and the vehicle reaches `parked = true` after exactly 2
ticks — one more than `ceil(15/20) = 1`, because the merge tick consumes no
distance — and never in fewer than `ceil(15/20)` ticks (it is not parked
after 0 ticks). -/
theorem C4_parks_after_exactly_two_ticks :
    ((dequeBack? c4Sim.veh.ledger).getD 0 ≤ c4Sim.veh.speed
      ∧ 1 < c4Sim.veh.ledger.length)
    ∧ (stepN 1 c4Sim).map (fun s => (s.veh.ledger, s.veh.isParked))
      = some ([15], false)
    ∧ (stepN 2 c4Sim).map (fun s => s.veh.isParked) = some true
    ∧ (stepN 0 c4Sim).map (fun s => s.veh.isParked) = some false := by
  norm_num [stepN, Step, drive, GetCurrentEdge, firstNonZeroIdx,
    findNonZeroIdx, GetCorrespondingEdge, dequeBack?, dequePopBack,
    GetPosition, NotInQueue, lookupQueue, setQueue, Option.map,
    c4Sim, demoPath, demoEdges, vA, vB, vC]

/-- C2 counterexample: a vehicle parking while queued at position 1 behind
another vehicle. The parking `Step` pops the QUEUE FRONT (`"other"`), so
the parking vehicle `"me"` is still a member of the edge's queue
afterwards, contradicting the claim that the step removes that same
vehicle. -/
theorem C2_parking_pop_removes_front_vehicle :
    (Step c2Sim).map
        (fun s => (s.veh.isParked, s.veh.ledger, lookupQueue s.queues (1, 2)))
      = some (true, [], ["me"])
    ∧ (Step c2Sim).map
        (fun s => decide (c2Sim.veh.vid ∈ lookupQueue s.queues (1, 2)))
      = some true := by
  norm_num [Step, drive, GetCurrentEdge, firstNonZeroIdx,
    findNonZeroIdx, GetCorrespondingEdge, dequeBack?, dequePopBack,
    GetPosition, NotInQueue, lookupQueue, setQueue, Option.map,
    c2Sim, vA, vB]
  decide

/-- C2 (amended): for a non-parked vehicle whose ledger holds exactly one
entry `r ≤ speed`, a single `Step` pops that entry (the ledger becomes
empty), sets `parked := true`, and pops the FRONT of the current edge's
queue, so its length decreases by exactly 1; when the vehicle itself is at
the front of that queue (appearing only there), the popped vehicle is the
vehicle itself, which is then no longer a member. -/
theorem C2_parking_step_pops_queue_front (s : Sim) (r : ℚ) (e : EdgeRec)
    (rest : List String)
    (hp : s.veh.isParked = false)
    (hl : s.veh.ledger = [r])
    (hr : r ≤ s.veh.speed)
    (he : GetCurrentEdge s = some e)
    (hq : lookupQueue s.queues (e.source, e.target) = s.veh.vid :: rest)
    (hnd : s.veh.vid ∉ rest) :
    ∃ t, Step s = some t
      ∧ t.veh.ledger = []
      ∧ t.veh.isParked = true
      ∧ lookupQueue t.queues (e.source, e.target) = rest
      ∧ s.veh.vid ∉ lookupQueue t.queues (e.source, e.target)
      ∧ (lookupQueue t.queues (e.source, e.target)).length + 1
          = (lookupQueue s.queues (e.source, e.target)).length := by
  have hback : dequeBack? s.veh.ledger = some r := by
    rw [hl]; rfl
  have hlen : s.veh.ledger.length = 1 := by rw [hl]; rfl
  have hpos : GetPosition (lookupQueue s.queues (e.source, e.target))
      s.veh.vid = 0 := by
    rw [hq]; simp [GetPosition]
  have hpos2 : ¬(GetPosition (lookupQueue s.queues (e.source, e.target))
      s.veh.vid = NotInQueue) := by
    rw [hpos]; simp [NotInQueue]
  have hnot1 : ¬(r ≤ s.veh.speed ∧ 1 < s.veh.ledger.length) := by
    rw [hlen]; simp
  have hstep : Step s = some { s with
      veh := { s.veh with
                 currentEdge := some (e.source, e.target)
                 ledger := []
                 isParked := true }
      queues := setQueue s.queues (e.source, e.target)
                  (lookupQueue s.queues (e.source, e.target)).tail } := by
    simp only [Step, hp, Bool.false_eq_true, if_false, drive, he, hback,
      hpos2, ite_false]
    rw [if_neg hnot1, if_pos ⟨hr, hlen⟩]
  refine ⟨_, hstep, by simp, by simp, ?_, ?_, ?_⟩
  · rw [lookupQueue_setQueue_self, hq]
    rfl
  · rw [lookupQueue_setQueue_self, hq]
    simpa using hnd
  · rw [lookupQueue_setQueue_self, hq]
    simp

/-- C2 witness: the amended parking step at a vehicle alone in its queue:
it parks, empties its ledger and leaves the queue, whose length drops from
1 to 0. -/
theorem C2_parking_step_pops_queue_front_witness :
    ∃ t, Step c2wSim = some t
      ∧ t.veh.ledger = []
      ∧ t.veh.isParked = true
      ∧ lookupQueue t.queues (1, 2) = []
      ∧ c2wSim.veh.vid ∉ lookupQueue t.queues (1, 2)
      ∧ (lookupQueue t.queues (1, 2)).length + 1
          = (lookupQueue c2wSim.queues (1, 2)).length :=
  C2_parking_step_pops_queue_front c2wSim 5 ⟨1, 2, 5⟩ [] rfl rfl
    (by norm_num [c2wSim])
    (by norm_num [GetCurrentEdge, firstNonZeroIdx, findNonZeroIdx,
      GetCorrespondingEdge, c2wSim, vA, vB])
    (by simp [c2wSim, lookupQueue])
    (by simp)

/-- C3: for a non-parked vehicle whose ledger is `l ++ [b, r]` (more than
one entry, consumption-end entry `r`) with `r ≤ speed`, and which is
already a member of the queue of the resolved current edge, a single `Step`
pops the back two entries and pushes their sum: the ledger becomes
`l ++ [r + b]` (length down by exactly 1, sum unchanged, still not parked),
and the current edge's queue — hence the vehicle's membership and position
in it — is unchanged. -/
theorem C3_caseA_merges_preserving_queue (s : Sim) (l : List ℚ) (b r : ℚ)
    (e : EdgeRec)
    (hp : s.veh.isParked = false)
    (hl : s.veh.ledger = l ++ [b, r])
    (hr : r ≤ s.veh.speed)
    (he : GetCurrentEdge s = some e)
    (hq : s.veh.vid ∈ lookupQueue s.queues (e.source, e.target)) :
    ∃ t, Step s = some t
      ∧ t.veh.ledger = l ++ [r + b]
      ∧ t.veh.ledger.length + 1 = s.veh.ledger.length
      ∧ t.veh.ledger.sum = s.veh.ledger.sum
      ∧ t.veh.isParked = false
      ∧ lookupQueue t.queues (e.source, e.target)
          = lookupQueue s.queues (e.source, e.target)
      ∧ s.veh.vid ∈ lookupQueue t.queues (e.source, e.target)
      ∧ GetPosition (lookupQueue t.queues (e.source, e.target)) s.veh.vid
          = GetPosition (lookupQueue s.queues (e.source, e.target))
              s.veh.vid := by
  have hsplit : s.veh.ledger = (l ++ [b]) ++ [r] := by rw [hl]; simp
  have hback : dequeBack? s.veh.ledger = some r := by
    rw [hsplit, dequeBack?_concat]
  have hpop : dequePopBack s.veh.ledger = l ++ [b] := by
    rw [hsplit, dequePopBack_concat]
  have hback2 : dequeBack? (dequePopBack s.veh.ledger) = some b := by
    rw [hpop, dequeBack?_concat]
  have hpop2 : dequePopBack (dequePopBack s.veh.ledger) = l := by
    rw [hpop, dequePopBack_concat]
  have hlen : 1 < s.veh.ledger.length := by rw [hl]; simp
  have hpos : ¬(GetPosition (lookupQueue s.queues (e.source, e.target))
      s.veh.vid = NotInQueue) :=
    GetPosition_ne_sentinel_of_mem _ _ hq
  have hstep : Step s = some { s with
      veh := { s.veh with
                 currentEdge := some (e.source, e.target)
                 ledger := l ++ [r + b] }
      queues := setQueue s.queues (e.source, e.target)
                  (lookupQueue s.queues (e.source, e.target)) } := by
    simp only [Step, hp, Bool.false_eq_true, if_false, drive, he, hback,
      hback2, hpop2, hpos, if_pos, ite_false, ite_true,
      and_true, true_and]
    rw [if_pos ⟨hr, hlen⟩]
  refine ⟨_, hstep, by simp, ?_, ?_, by simp [hp], ?_, ?_, ?_⟩
  · simp [hl]
  · simp only [hl]
    simp [List.sum_append]
    ring
  · exact lookupQueue_setQueue_self _ _ _
  · rw [lookupQueue_setQueue_self]; exact hq
  · rw [lookupQueue_setQueue_self]

/-- C3 witness: the merging step at the concrete speed-6 vehicle with
ledger `[10, 5]` queued on edge (1, 2): the ledger becomes `[5 + 10]`,
and the queue it sits in is untouched. -/
theorem C3_caseA_merges_preserving_queue_witness :
    ∃ t, Step c3Sim = some t
      ∧ t.veh.ledger = [] ++ [(5 : ℚ) + 10]
      ∧ t.veh.ledger.length + 1 = c3Sim.veh.ledger.length
      ∧ t.veh.ledger.sum = c3Sim.veh.ledger.sum
      ∧ t.veh.isParked = false
      ∧ lookupQueue t.queues (1, 2) = lookupQueue c3Sim.queues (1, 2)
      ∧ c3Sim.veh.vid ∈ lookupQueue t.queues (1, 2)
      ∧ GetPosition (lookupQueue t.queues (1, 2)) c3Sim.veh.vid
          = GetPosition (lookupQueue c3Sim.queues (1, 2)) c3Sim.veh.vid :=
  C3_caseA_merges_preserving_queue c3Sim [] 10 5 ⟨1, 2, 10⟩ rfl rfl
    (by norm_num [c3Sim])
    (by norm_num [GetCurrentEdge, firstNonZeroIdx, findNonZeroIdx,
      GetCorrespondingEdge, c3Sim, demoPath, demoEdges, vA, vB, vC])
    (by simp [c3Sim, lookupQueue])

/-- C8: whenever path-to-edge resolution succeeds with lengths `ls`,
`NewVehicle` produces a vehicle whose ledger is exactly the nonzero
lengths in order; hence its sum equals the sum of the path's edge lengths
excluding the zero-length ones (which equals the full sum, zero edges
contributing nothing), and no zero entry is ever inserted. -/
theorem C8_construction_ledger_sum (edges : List EdgeRec)
    (path : List GVertex) (speed : ℚ) (vid : String) (ls : List ℚ)
    (h : GetPathLengths edges path = some ls) :
    ∃ v, NewVehicle edges path speed vid = some v
      ∧ v.ledger = ls.filter (fun x => decide (x ≠ 0))
      ∧ v.ledger.sum = (ls.filter (fun x => decide (x ≠ 0))).sum
      ∧ v.ledger.sum = ls.sum
      ∧ (0 : ℚ) ∉ v.ledger := by
  have hnv : NewVehicle edges path speed vid
      = some { vid := vid, speed := speed, path := path,
               ledger := buildLedger ls, isParked := false,
               currentEdge := none } := by
    simp [NewVehicle, h]
  refine ⟨_, hnv, ?_, ?_, ?_, ?_⟩
  · exact buildLedger_eq_filter ls
  · rw [buildLedger_eq_filter]
  · rw [buildLedger_eq_filter, sum_filter_nonzero]
  · rw [buildLedger_eq_filter]
    exact zero_not_mem_filter_nonzero ls

/-- C8 witness: on the route with edge lengths `[10, 0, 5]`, construction
yields ledger `[10, 5]` with sum 15 and no zero entry. -/
theorem C8_construction_ledger_sum_witness :
    ∃ v, NewVehicle c8Edges c8Path 7 "veh8" = some v
      ∧ v.ledger = ([10, 0, 5] : List ℚ).filter (fun x => decide (x ≠ 0))
      ∧ v.ledger.sum
          = (([10, 0, 5] : List ℚ).filter (fun x => decide (x ≠ 0))).sum
      ∧ v.ledger.sum = ([10, 0, 5] : List ℚ).sum
      ∧ (0 : ℚ) ∉ v.ledger :=
  C8_construction_ledger_sum c8Edges c8Path 7 "veh8" [10, 0, 5]
    (by norm_num [GetPathLengths, GetCorrespondingEdge, c8Edges, c8Path,
      vA, vB, vC, vD])

/-- C9: `IsLeading` is `true` iff the current edge is resolved and the
vehicle's 0-based position in its queue is 0, a `nil` current edge is
reported not leading (without failing), and position 0 is equivalent to the
queue front being the vehicle itself. -/
theorem C9_isLeading_iff_queue_front (s : Sim) :
    (s.veh.currentEdge = none → IsLeading s = false)
    ∧ (IsLeading s = true ↔ ∃ k, s.veh.currentEdge = some k
         ∧ GetPosition (lookupQueue s.queues k) s.veh.vid = 0)
    ∧ (∀ q vid, GetPosition q vid = 0 ↔ q.head? = some vid) := by
  have part3 : ∀ (q : List String) (vid : String),
      GetPosition q vid = 0 ↔ q.head? = some vid := by
    intro q vid
    cases q with
    | nil => simp [GetPosition, NotInQueue]
    | cons x rest =>
      by_cases hx : x = vid
      · simp [GetPosition, hx]
      · have hne : ¬ (some x = some vid) := by simpa using hx
        simp only [GetPosition, hx, if_false, List.head?_cons]
        constructor
        · intro h
          exfalso
          by_cases hp : GetPosition rest vid = NotInQueue
          · rw [if_pos hp] at h
            simp [NotInQueue] at h
          · rw [if_neg hp] at h
            have h0 := GetPosition_nonneg_of_mem rest vid
            by_cases hm : vid ∈ rest
            · have := h0 hm
              omega
            · have : GetPosition rest vid = NotInQueue := by
                clear h hp h0
                induction rest with
                | nil => rfl
                | cons y t ih2 =>
                  have hy : y ≠ vid := fun hy =>
                    hm (hy ▸ List.mem_cons_self y t)
                  have hmt : vid ∉ t := fun hmt =>
                    hm (List.mem_cons_of_mem y hmt)
                  simp only [GetPosition, hy, if_false, ih2 hmt]
                  simp [NotInQueue]
              exact hp this
        · intro h
          exact absurd h hne
  refine ⟨?_, ?_, part3⟩
  · intro h
    simp [IsLeading, FrontVehicle, h]
  · cases hce : s.veh.currentEdge with
    | none =>
      simp [IsLeading, FrontVehicle, hce]
    | some k =>
      by_cases hp : GetPosition (lookupQueue s.queues k) s.veh.vid = 0
      · simp [IsLeading, FrontVehicle, hce, hp]
      · simp [IsLeading, FrontVehicle, hce, hp]

/-- C9 witness: the parked vehicle with a `nil` current edge is not
leading, and in the queue `["x", "v"]` the vehicle `"v"` has position 0
iff it is the queue front (both sides false here). -/
theorem C9_isLeading_iff_queue_front_witness :
    IsLeading c9Sim = false
    ∧ (GetPosition ["x", "v"] "v" = 0
        ↔ (["x", "v"] : List String).head? = some "v") :=
  ⟨(C9_isLeading_iff_queue_front c9Sim).1 rfl,
   (C9_isLeading_iff_queue_front c9Sim).2.2 ["x", "v"] "v"⟩

/-- C5: the bounding box scans only edge-incident vertices — prepending a
vertex whose id no edge mentions leaves the result unchanged — its extrema
are seeded at minimum (100, 100) and maximum (0, 0) (the value returned for
an edgeless graph), and consequently when every scanned vertex has both
coordinates above 100 the minimum stays at its seed (100, 100), and when
every scanned vertex has both coordinates negative the maximum stays at its
seed (0, 0). -/
theorem C5_boundingBox_seeds_and_edge_scan (jg : JGraph) (w : GVertex)
    (vs : List GVertex)
    (hw : w.ID ∉ edgeVertexIds jg.edges)
    (hvs : GetVertices jg = some vs) :
    GetTopRightBottomLeftVertices ⟨w :: jg.vertices, jg.edges⟩
        = GetTopRightBottomLeftVertices jg
    ∧ GetTopRightBottomLeftVertices ⟨jg.vertices, []⟩ = (⟨100, 100⟩, ⟨0, 0⟩)
    ∧ ((∀ v ∈ vs, 100 < v.X ∧ 100 < v.Y) →
        (GetTopRightBottomLeftVertices jg).1 = ⟨100, 100⟩)
    ∧ ((∀ v ∈ vs, v.X < 0 ∧ v.Y < 0) →
        (GetTopRightBottomLeftVertices jg).2 = ⟨0, 0⟩) := by
  refine ⟨?_, rfl, ?_, ?_⟩
  · simp only [GetTopRightBottomLeftVertices, GetVertices]
    rw [lookupAll_cons_of_not_mem w jg.vertices (edgeVertexIds jg.edges) hw]
  · intro hall
    have hmin := bbFold_min_fixed vs (100, 100, 0, 0)
      (fun v hv => ⟨le_of_lt (hall v hv).1, le_of_lt (hall v hv).2⟩)
    simp only [GetTopRightBottomLeftVertices, hvs, bboxFold]
    rw [Point.mk.injEq]
    exact ⟨by simpa using hmin.1, by simpa using hmin.2⟩
  · intro hall
    have hmax := bbFold_max_fixed vs (100, 100, 0, 0)
      (fun v hv => ⟨le_of_lt (hall v hv).1, le_of_lt (hall v hv).2⟩)
    simp only [GetTopRightBottomLeftVertices, hvs, bboxFold]
    rw [Point.mk.injEq]
    exact ⟨by simpa using hmax.1, by simpa using hmax.2⟩

/-- C5 witness: on the graph with both connected vertices beyond
coordinate 100, the isolated vertex `w5` does not change the bounding box,
and the minimum corner stays at the seed (100, 100) rather than the true
minimum (150, 120). -/
theorem C5_boundingBox_seeds_and_edge_scan_witness :
    GetTopRightBottomLeftVertices ⟨w5 :: jg5.vertices, jg5.edges⟩
        = GetTopRightBottomLeftVertices jg5
    ∧ (GetTopRightBottomLeftVertices jg5).1 = ⟨100, 100⟩ := by
  have h := C5_boundingBox_seeds_and_edge_scan jg5 w5
    [⟨1, 150, 150⟩, ⟨2, 200, 120⟩] (by decide) (by rfl)
  refine ⟨h.1, h.2.2.1 ?_⟩
  intro v hv
  rcases List.mem_cons.mp hv with h1 | hv2
  · rw [h1]; norm_num
  · rcases List.mem_cons.mp hv2 with h2 | h3
    · rw [h2]; norm_num
    · cases h3

/-- C6: the subgraph built by `GraphFromRect` contains an edge `(s, t)`
only if both endpoint ids are members of `rect.Vertices`; equivalently both
endpoints satisfy `InRect` — so an edge with exactly one endpoint inside
the rect is dropped. -/
theorem C6_subgraph_edges_inside_rect (edges : List (VertexId × VertexId))
    (rect : Rect) (s t : VertexId)
    (h : (s, t) ∈ (GraphFromRect edges rect).uedges) :
    rectMemId rect s = true ∧ rectMemId rect t = true
    ∧ (∀ v : GVertex, (v.ID = s ∨ v.ID = t) → InRect rect v = true) := by
  have h2 := graphFromRect_mem_uedges edges rect (s, t) h
  refine ⟨h2.1, h2.2, ?_⟩
  intro v hv
  rcases hv with hv | hv
  · show rect.vertices.any (fun w => decide (w.ID = v.ID)) = true
    rw [hv]
    exact h2.1
  · show rect.vertices.any (fun w => decide (w.ID = v.ID)) = true
    rw [hv]
    exact h2.2

/-- C6 witness: from the input `[(1, 2), (3, 1)]` against the rect holding
vertices 1 and 2, the stored edge `(1, 2)` has both endpoints inside —
and the cross-partition edge `(3, 1)` was dropped, as the theorem forces
for any stored edge. -/
theorem C6_subgraph_edges_inside_rect_witness :
    rectMemId rect12 1 = true ∧ rectMemId rect12 2 = true
    ∧ (∀ v : GVertex, (v.ID = 1 ∨ v.ID = 2) → InRect rect12 v = true) :=
  C6_subgraph_edges_inside_rect [(1, 2), (3, 1)] rect12 1 2 (by decide)

/-- C7: for `n ≥ 1`, `DivideGraphsIntoRects` returns exactly `n` rects;
strip `i`'s top x equals strip `i+1`'s bottom x, the first strip starts at
the bounding box's `botX` and the last ends at `topX` exactly, every strip
has width `(topX - botX)/n`, and every strip spans the full y-range. -/
theorem C7_divide_contiguous_strips (n : Nat) (jg : JGraph)
    (rects : List Rect) (hn : 1 ≤ n)
    (h : DivideGraphsIntoRects n jg = some rects) :
    rects.length = n
    ∧ (∀ i, i + 1 < n →
        (rects[i]?).map (fun r => r.topRight.X)
          = (rects[i+1]?).map (fun r => r.botLeft.X))
    ∧ (rects[0]?).map (fun r => r.botLeft.X)
        = some (GetTopRightBottomLeftVertices jg).1.X
    ∧ (rects[n-1]?).map (fun r => r.topRight.X)
        = some (GetTopRightBottomLeftVertices jg).2.X
    ∧ (∀ i, i < n →
        (rects[i]?).map (fun r => r.topRight.X - r.botLeft.X)
          = some (((GetTopRightBottomLeftVertices jg).2.X
                    - (GetTopRightBottomLeftVertices jg).1.X) / (n : ℚ)))
    ∧ (∀ i, i < n →
        (rects[i]?).map (fun r => (r.botLeft.Y, r.topRight.Y))
          = some ((GetTopRightBottomLeftVertices jg).1.Y,
                  (GetTopRightBottomLeftVertices jg).2.Y)) := by
  have hn0 : (n : ℚ) ≠ 0 := Nat.cast_ne_zero.mpr (by omega)
  cases hgv : GetVertices jg with
  | none =>
    rw [DivideGraphsIntoRects] at h
    simp only [hgv] at h
    exact Option.noConfusion h
  | some vs =>
    rw [DivideGraphsIntoRects] at h
    simp only [hgv, Option.some.injEq] at h
    subst h
    set bot := (GetTopRightBottomLeftVertices jg).1 with hbot
    set top := (GetTopRightBottomLeftVertices jg).2 with htop
    refine ⟨by rw [List.length_map, List.length_range], ?_, ?_, ?_, ?_, ?_⟩
    · intro i hi
      have h1 : i < n := by omega
      rw [List.getElem?_map, List.getElem?_map,
        List.getElem?_range h1, List.getElem?_range hi]
      simp only [Option.map_some', stripRect, Option.some.injEq]
      push_cast
      ring
    · have h0 : 0 < n := by omega
      rw [List.getElem?_map, List.getElem?_range h0]
      simp only [Option.map_some', stripRect, Option.some.injEq]
      push_cast
      ring
    · have hlast : n - 1 < n := by omega
      rw [List.getElem?_map, List.getElem?_range hlast]
      simp only [Option.map_some', stripRect, Option.some.injEq]
      have hcast : ((n - 1 : Nat) : ℚ) + 1 = (n : ℚ) := by
        push_cast [Nat.cast_sub hn]
        ring
      rw [hcast, div_mul_cancel₀ _ hn0]
      ring
    · intro i hi
      rw [List.getElem?_map, List.getElem?_range hi]
      simp only [Option.map_some', stripRect, Option.some.injEq]
      ring
    · intro i hi
      rw [List.getElem?_map, List.getElem?_range hi]
      simp only [Option.map_some', stripRect]

/-- C7 witness: dividing the demo graph into 2 strips yields 2 contiguous
strips spanning the bounding box exactly, each of width half the box and
full y-range. -/
theorem C7_divide_contiguous_strips_witness :
    c7Rects.length = 2
    ∧ (∀ i, i + 1 < 2 →
        (c7Rects[i]?).map (fun r => r.topRight.X)
          = (c7Rects[i+1]?).map (fun r => r.botLeft.X))
    ∧ (c7Rects[0]?).map (fun r => r.botLeft.X)
        = some (GetTopRightBottomLeftVertices c7Graph).1.X
    ∧ (c7Rects[2-1]?).map (fun r => r.topRight.X)
        = some (GetTopRightBottomLeftVertices c7Graph).2.X
    ∧ (∀ i, i < 2 →
        (c7Rects[i]?).map (fun r => r.topRight.X - r.botLeft.X)
          = some (((GetTopRightBottomLeftVertices c7Graph).2.X
                    - (GetTopRightBottomLeftVertices c7Graph).1.X)
                  / ((2 : Nat) : ℚ)))
    ∧ (∀ i, i < 2 →
        (c7Rects[i]?).map (fun r => (r.botLeft.Y, r.topRight.Y))
          = some ((GetTopRightBottomLeftVertices c7Graph).1.Y,
                  (GetTopRightBottomLeftVertices c7Graph).2.Y)) :=
  C7_divide_contiguous_strips 2 c7Graph c7Rects (by norm_num) rfl

/-- C10: the subgraph `GraphFromRect` builds is undirected: the duplicate
check finds an edge between `s` and `t` in one orientation iff it does in
the other; once an edge between `s` and `t` is present, a later input edge
`(t, s)` is ignored as a duplicate (appending it to the input changes
nothing); and the stored edge list never holds both orientations of an
edge between distinct vertices — so the direction of the original network
is not preserved. -/
theorem C10_subgraph_is_undirected (edges : List (VertexId × VertexId))
    (rect : Rect) (s t : VertexId) :
    edgeExistsU (GraphFromRect edges rect) s t
        = edgeExistsU (GraphFromRect edges rect) t s
    ∧ (edgeExistsU (GraphFromRect edges rect) s t = true →
        GraphFromRect (edges ++ [(t, s)]) rect = GraphFromRect edges rect)
    ∧ (s ≠ t →
        ¬((s, t) ∈ (GraphFromRect edges rect).uedges
          ∧ (t, s) ∈ (GraphFromRect edges rect).uedges)) := by
  refine ⟨edgeExistsU_symm _ s t, ?_, graphFromRect_no_dual edges rect s t⟩
  intro hex
  have hfold : GraphFromRect (edges ++ [(t, s)]) rect
      = graphFromRectStep rect (GraphFromRect edges rect) (t, s) := by
    unfold GraphFromRect
    rw [List.foldl_append]
    rfl
  rw [hfold]
  generalize hG : GraphFromRect edges rect = G at hex ⊢
  unfold graphFromRectStep
  by_cases hc1 : rectMemId rect (t, s).1 = true ∧ rectMemId rect (t, s).2 = true
  · rw [if_pos hc1]
    unfold addEdgeU
    by_cases hc2 : hasVertexU G (t, s).1 = true ∧ hasVertexU G (t, s).2 = true
    · rw [if_pos hc2]
      have hex2 : edgeExistsU G (t, s).1 (t, s).2 = true := by
        show edgeExistsU G t s = true
        rw [edgeExistsU_symm]
        exact hex
      rw [if_pos hex2]
    · rw [if_neg hc2]
  · rw [if_neg hc1]

/-- C10 witness: with both endpoints in the rect, the reversed input edge
`(2, 1)` coming after `(1, 2)` is ignored as a duplicate, and the stored
edge list never holds both orientations. -/
theorem C10_subgraph_is_undirected_witness :
    GraphFromRect ([(1, 2)] ++ [(2, 1)]) rect12 = GraphFromRect [(1, 2)] rect12
    ∧ ¬((1, 2) ∈ (GraphFromRect [(1, 2)] rect12).uedges
        ∧ (2, 1) ∈ (GraphFromRect [(1, 2)] rect12).uedges) :=
  ⟨(C10_subgraph_is_undirected [(1, 2)] rect12 1 2).2.1 (by decide),
   (C10_subgraph_is_undirected [(1, 2)] rect12 1 2).2.2 (by decide)⟩

end Streets
